import Mathlib

/-!
Verification of the `looper` crate (src/src/lib.rs): a single-threaded event
loop driving a user handler over an mpsc channel.

The Rust driver is

  pub fn run<EVENT, HANDLER: Handler<EVENT>>(mut handler: HANDLER) {
      let (tx, rx) = std::sync::mpsc::channel();
      handler.start(tx);
      let mut running = true;
      while running {
          running = match rx.recv() {
              Ok(event) => handler.handle(event),
              _ => false,
          }
      }
      handler.end();
  }

We embed the handler trait and this driver shallowly.  The channel is a
`std::sync::mpsc` unbounded FIFO: `recv` returns the queued events in send
order and resolves to an error exactly when the queue is empty and every
`Sender` (the original and all clones) has been dropped; with a live sender
and an empty queue it blocks.  Each model below fixes one abstraction of the
producer side (all sends during `start`; an explicit list of `recv`
resolutions; an explicit global order of producer actions; panicking
callbacks; a handler that keeps its sender and sends from `handle`).
-/

namespace Looper

/-- Observable lifecycle events of one `run` invocation, in the order the
driver performs them: the `start` callback, one `handle` callback per
delivered event, and the final `end` callback. -/
inductive LEv (E : Type) where
  | startEv : LEv E
  | handleEv : E → LEv E
  | endEv : LEv E
deriving DecidableEq, Repr

/-- Discriminator for the `start` lifecycle event. -/
def isStart {E : Type} : LEv E → Bool
  | .startEv => true
  | _ => false

/-- Discriminator for the `end` lifecycle event. -/
def isEnd {E : Type} : LEv E → Bool
  | .endEv => true
  | _ => false

/-- Embedding of the `Handler` trait (src/src/lib.rs, lines 45-61) for a
handler whose `start` sends a finite sequence of events synchronously and
lets the sender go out of scope before returning, and whose `handle` and
`end` are pure state transformers.  `start` returns the updated handler
state and the list of events it sent, in send order; `handle` returns the
updated state and the continue flag; `endh` embeds `end(self)`, observing
the final state. -/
structure Handler (S E : Type) where
  start : S → S × List E
  handle : S → E → S × Bool
  endh : S → S

/-- Result of the dispatch loop: the handler state when the loop exits, the
events that were passed to `handle` (in order), and whether the loop exited
because `handle` returned `false` (`stopped = true`) rather than because
`rx.recv()` resolved to an error. -/
structure DispatchOut (S E : Type) where
  state : S
  delivered : List E
  stopped : Bool
deriving DecidableEq, Repr

/-- The `while running` loop of `run` (src/src/lib.rs, lines 66-72) for a
channel whose senders were all dropped when `start` returned: `rx.recv()`
yields the queued events in FIFO order and then resolves to `RecvError`.
On `Ok(event)` the loop calls `handle` and continues iff it returned
`true`; on an error it exits. -/
def dispatch {S E : Type} (H : Handler S E) : S → List E → DispatchOut S E
  | s, [] => ⟨s, [], false⟩
  | s, e :: q =>
    let p := H.handle s e
    if p.2 then
      let o := dispatch H p.1 q
      ⟨o.state, e :: o.delivered, o.stopped⟩
    else
      ⟨p.1, [e], true⟩

/-- Embedding of `run` (src/src/lib.rs, lines 63-74) for a synchronous
handler: create the channel, call `start` (whose sends populate the queue
and which drops the sender), run the dispatch loop, call `end`.  Returns
the final state and the lifecycle trace. -/
def run {S E : Type} (H : Handler S E) (s₀ : S) : S × List (LEv E) :=
  (H.endh (dispatch H (H.start s₀).1 (H.start s₀).2).state,
   LEv.startEv ::
     ((dispatch H (H.start s₀).1 (H.start s₀).2).delivered.map LEv.handleEv ++ [LEv.endEv]))

/-- When `handle` always asks to continue, the dispatch loop delivers the
whole queue and exits through the channel-closed branch. -/
theorem dispatch_all_true {S E : Type} (H : Handler S E)
    (hT : ∀ s e, (H.handle s e).2 = true) :
    ∀ (q : List E) (s : S), (dispatch H s q).delivered = q ∧ (dispatch H s q).stopped = false := by
  intro q
  induction q with
  | nil => intro s; simp [dispatch]
  | cons e q ih =>
    intro s
    simp only [dispatch, hT s e, if_true]
    exact ⟨by rw [(ih _).1], (ih _).2⟩

/-- C1: for a handler whose `start` sends the finite sequence `S` of events
synchronously before returning and whose `handle` always returns `true`,
`run` invokes `handle` exactly once per element of `S`, in the order of
`S`, with every `handle` invocation after `start` completed and before
`end` began. -/
theorem run_delivers_start_events_in_order {S E : Type} (H : Handler S E) (s₀ : S)
    (hT : ∀ s e, (H.handle s e).2 = true) :
    (run H s₀).2 = LEv.startEv :: ((H.start s₀).2.map LEv.handleEv ++ [LEv.endEv]) := by
  unfold run
  rw [(dispatch_all_true H hT _ _).1]

/-- Concrete handler collecting the events `[1, 2, 3]`, as in the crate's
`run_with_data` test (src/src/tests.rs). -/
def collectH : Handler (List Nat) Nat where
  start s := (s, [1, 2, 3])
  handle s e := (s ++ [e], true)
  endh s := s

/-- Witness for C1 at the concrete handler `collectH`. -/
theorem run_delivers_start_events_in_order_w :
    (run collectH []).2
      = LEv.startEv :: (([1, 2, 3] : List Nat).map LEv.handleEv ++ [LEv.endEv]) :=
  run_delivers_start_events_in_order collectH [] (fun _ _ => rfl)

/-- C5: a handler whose `start` sends nothing (and drops its sender) makes
`run` terminate with `end` invoked exactly once and `handle` invoked zero
times. -/
theorem run_no_events {S E : Type} (H : Handler S E) (s₀ : S)
    (h : (H.start s₀).2 = []) :
    (run H s₀).2 = [LEv.startEv, LEv.endEv] := by
  unfold run
  rw [h]
  simp [dispatch]

/-- Concrete handler sending nothing, as in the crate's `run_empty` test. -/
def emptyH : Handler (List Nat) Nat where
  start s := (s, [])
  handle s e := (s ++ [e], true)
  endh s := s

/-- Witness for C5 at the concrete handler `emptyH`. -/
theorem run_no_events_w : (run emptyH []).2 = [LEv.startEv, LEv.endEv] :=
  run_no_events emptyH [] rfl

/-- C2: every execution of `run` follows the state machine
`AwaitingStart → Dispatching → Terminated`: the trace is `start`, then the
`handle` calls of the dispatch loop (however it exits), then `end`; so
`start` occurs exactly once and before any `handle` call, `end` occurs
exactly once after the loop, and `run` returns only after `end`. -/
theorem run_state_machine {S E : Type} (H : Handler S E) (s₀ : S) :
    (∃ ds : List E, (run H s₀).2 = LEv.startEv :: (ds.map LEv.handleEv ++ [LEv.endEv]))
    ∧ (run H s₀).2.countP isStart = 1
    ∧ (run H s₀).2.countP isEnd = 1
    ∧ (run H s₀).2.head? = some LEv.startEv
    ∧ (run H s₀).2.getLast? = some LEv.endEv := by
  refine ⟨⟨(dispatch H (H.start s₀).1 (H.start s₀).2).delivered, rfl⟩, ?_, ?_, rfl, ?_⟩
  · show List.countP _ (LEv.startEv :: (List.map LEv.handleEv _ ++ [LEv.endEv])) = 1
    simp [List.countP_cons, List.countP_map, Function.comp_def, isStart]
  · show List.countP _ (LEv.startEv :: (List.map LEv.handleEv _ ++ [LEv.endEv])) = 1
    simp [List.countP_cons, List.countP_map, Function.comp_def, isEnd]
  · show List.getLast? (LEv.startEv :: (List.map LEv.handleEv _ ++ [LEv.endEv])) = _
    rw [show LEv.startEv :: (List.map LEv.handleEv (dispatch H (H.start s₀).1 (H.start s₀).2).delivered ++ [LEv.endEv])
        = (LEv.startEv :: List.map LEv.handleEv (dispatch H (H.start s₀).1 (H.start s₀).2).delivered) ++ [LEv.endEv] from rfl]
    exact List.getLast?_concat _

/-- Once the dispatch loop has exited because `handle` returned `false`,
events still queued behind the processed prefix are never looked at:
dispatching `q₁ ++ q₂` is the same as dispatching `q₁` alone. -/
theorem dispatch_append_stopped {S E : Type} (H : Handler S E) :
    ∀ (q₁ : List E) (s : S) (q₂ : List E), (dispatch H s q₁).stopped = true →
      dispatch H s (q₁ ++ q₂) = dispatch H s q₁ := by
  intro q₁
  induction q₁ with
  | nil => intro s q₂ h; simp [dispatch] at h
  | cons e q₁ ih =>
    intro s q₂ h
    by_cases hp : (H.handle s e).2 = true
    · simp only [dispatch, hp, if_true, List.append_eq] at h ⊢
      rw [ih _ _ h]
    · simp only [dispatch, hp, if_false, Bool.false_eq_true, List.cons_append] at h ⊢

/-- C3: if `handle` returns `false` on the k-th delivered event (here: the
queue is `q₁ ++ q₂` with `q₁` the first k events, all of `q₁` delivered and
the loop stopped on its last element), then no event of `q₂` is ever
delivered to `handle` even though it was already queued; the queued
remainder is discarded unobservably and `end` is still invoked last. -/
theorem run_early_stop {S E : Type} (H : Handler S E) (s₀ : S) (q₁ q₂ : List E)
    (hq : (H.start s₀).2 = q₁ ++ q₂)
    (hstop : (dispatch H (H.start s₀).1 q₁).stopped = true)
    (hdel : (dispatch H (H.start s₀).1 q₁).delivered = q₁) :
    (run H s₀).2 = LEv.startEv :: (q₁.map LEv.handleEv ++ [LEv.endEv]) := by
  unfold run
  rw [hq, dispatch_append_stopped H q₁ _ q₂ hstop, hdel]

/-- Concrete handler that collects events and asks to stop upon event `2`. -/
def stopH : Handler (List Nat) Nat where
  start s := (s, [1, 2, 3])
  handle s e := (s ++ [e], e != 2)
  endh s := s

/-- Witness for C3: `stopH` queues `[1,2,3]`, stops on `2`; `3` is never
delivered. -/
theorem run_early_stop_w :
    (run stopH []).2 = LEv.startEv :: (([1, 2] : List Nat).map LEv.handleEv ++ [LEv.endEv]) :=
  run_early_stop stopH [] [1, 2] [3] rfl rfl rfl

/-- The `while running` loop of `run` (src/src/lib.rs, lines 66-72) driven
by an explicit list of successive `rx.recv()` resolutions, each `Ok` with
an event or an error of an arbitrary type `ε` (the driver matches
`Ok(event)` and a wildcard `_`, never inspecting the error).  Returns
`none` when the prescribed resolutions run out while the loop still needs
one (the real loop would still be blocked in `recv`), otherwise the state
and the events delivered to `handle`. -/
def loopRecv {S E ε : Type} (H : Handler S E) : S → List (Except ε E) → Option (S × List E)
  | _, [] => none
  | s, Except.ok e :: rs =>
    let p := H.handle s e
    if p.2 then (loopRecv H p.1 rs).map (fun o => (o.1, e :: o.2)) else some (p.1, [e])
  | s, Except.error _ :: _ => some (s, [])

/-- Embedding of `run` (src/src/lib.rs, lines 63-74) over an explicit list
of `recv` resolutions: `start` first, the loop, then `end`; the result (when
the loop terminates) is the final state and the lifecycle trace. -/
def runRecv {S E ε : Type} (H : Handler S E) (s₀ : S) (recvs : List (Except ε E)) :
    Option (S × List (LEv E)) :=
  (loopRecv H (H.start s₀).1 recvs).map
    (fun o => (H.endh o.1, LEv.startEv :: (o.2.map LEv.handleEv ++ [LEv.endEv])))

/-- C6: every non-success resolution of the blocking receive is treated
identically by the driver, whatever its error value and whatever could
follow: it terminates the dispatch loop at once (no event delivered, the
handler state untouched, the cause never surfaced to the handler), and
`run` still returns normally through `end` — nothing is propagated to the
caller. -/
theorem recv_error_uniform {S E ε : Type} (H : Handler S E) (s s₀ : S) (err err' : ε)
    (rs rs' : List (Except ε E)) :
    loopRecv H s (Except.error err :: rs) = some (s, [])
    ∧ loopRecv H s (Except.error err :: rs) = loopRecv H s (Except.error err' :: rs')
    ∧ runRecv H s₀ (Except.error err :: rs)
        = some (H.endh (H.start s₀).1, [LEv.startEv, LEv.endEv]) :=
  ⟨rfl, rfl, rfl⟩

/-- A producer-side action on the channel, in the single global order the
channel observes: a successful `send` of an event, a `clone` of a live
`Sender`, or the `drop` of one. -/
inductive PAct (E : Type) where
  | send : E → PAct E
  | clone : PAct E
  | drop : PAct E
deriving DecidableEq, Repr

/-- Number of live senders after all the actions have happened, starting
from `n` live senders. -/
def sendersAfter {E : Type} : Nat → List (PAct E) → Nat
  | n, [] => n
  | n, PAct.send _ :: as => sendersAfter n as
  | n, PAct.clone :: as => sendersAfter (n + 1) as
  | n, PAct.drop :: as => sendersAfter (n - 1) as

/-- The events successfully sent by a list of producer actions, in channel
order. -/
def actsSends {E : Type} : List (PAct E) → List E
  | [] => []
  | PAct.send e :: as => e :: actsSends as
  | PAct.clone :: as => actsSends as
  | PAct.drop :: as => actsSends as

/-- Well-formed producer activity: every action is performed through a live
`Sender` handle (Rust's ownership makes anything else impossible), with the
sender count tracked exactly. -/
inductive WFActs {E : Type} : Nat → List (PAct E) → Prop where
  | nil (n : Nat) : WFActs n []
  | send (e : E) (n : Nat) (as : List (PAct E)) :
      0 < n → WFActs n as → WFActs n (PAct.send e :: as)
  | clone (n : Nat) (as : List (PAct E)) :
      0 < n → WFActs (n + 1) as → WFActs n (PAct.clone :: as)
  | drop (n : Nat) (as : List (PAct E)) :
      0 < n → WFActs (n - 1) as → WFActs n (PAct.drop :: as)

/-- The `while running` loop of `run` from a state where the queue is empty
and `n` senders are live, given the remaining producer actions in channel
order.  `rx.recv()` with an empty queue errors when no sender is live and
otherwise blocks until the next producer action; a newly sent event is
delivered at once (FIFO with an empty backlog).  Delaying each producer
action until the driver blocks is observationally equivalent to true
interleaving, because delivery order is fixed by send order and drops
matter only to a blocked `recv`.  Returns `none` when the loop blocks
forever (senders remain but no further action comes). -/
def exec {S E : Type} (H : Handler S E) : S → Nat → List (PAct E) → Option (S × List E)
  | s, 0, _ => some (s, [])
  | _, _ + 1, [] => none
  | s, n + 1, PAct.clone :: as => exec H s (n + 2) as
  | s, n + 1, PAct.drop :: as => exec H s n as
  | s, n + 1, PAct.send e :: as =>
    let p := H.handle s e
    if p.2 then (exec H p.1 (n + 1) as).map (fun o => (o.1, e :: o.2)) else some (p.1, [e])

/-- Embedding of `run` (src/src/lib.rs, lines 63-74) with concurrent
producers: `start` sends its synchronous events and leaves `n` live sender
handles (clones moved to other threads, possibly its own); `acts` is the
global channel-order list of the producers' subsequent actions.  The loop
first drains the events `start` queued, then follows `exec`. -/
def runConc {S E : Type} (H : Handler S E) (s₀ : S) (n : Nat) (acts : List (PAct E)) :
    Option (S × List (LEv E)) :=
  if (dispatch H (H.start s₀).1 (H.start s₀).2).stopped then
    some (H.endh (dispatch H (H.start s₀).1 (H.start s₀).2).state,
      LEv.startEv ::
        ((dispatch H (H.start s₀).1 (H.start s₀).2).delivered.map LEv.handleEv ++ [LEv.endEv]))
  else
    (exec H (dispatch H (H.start s₀).1 (H.start s₀).2).state n acts).map
      (fun r => (H.endh r.1,
        LEv.startEv ::
          (((dispatch H (H.start s₀).1 (H.start s₀).2).delivered ++ r.2).map LEv.handleEv
            ++ [LEv.endEv])))

/-- Mapping a function over an optional value keeps whether it is present. -/
theorem isSome_map_opt {α β : Type} (f : α → β) (o : Option α) :
    (o.map f).isSome = o.isSome := by
  cases o <;> rfl

/-- For an always-continue handler and well-formed producer activity, the
loop terminates exactly when the producers eventually drop every sender,
and then it has delivered every successfully sent event in channel order. -/
theorem exec_always_true {S E : Type} (H : Handler S E)
    (hT : ∀ s e, (H.handle s e).2 = true) :
    ∀ (acts : List (PAct E)) (n : Nat) (s : S), WFActs n acts →
      ((exec H s n acts).isSome = true ↔ sendersAfter n acts = 0)
      ∧ (sendersAfter n acts = 0 → ∃ sf, exec H s n acts = some (sf, actsSends acts)) := by
  intro acts
  induction acts with
  | nil =>
    intro n s _
    cases n with
    | zero => exact ⟨by simp [exec, sendersAfter], fun _ => ⟨s, rfl⟩⟩
    | succ m => exact ⟨by simp [exec, sendersAfter], fun h => absurd h (Nat.succ_ne_zero m)⟩
  | cons a as ih =>
    intro n s hwf
    cases hwf with
    | send e n as hn hwf' =>
      obtain ⟨m, rfl⟩ := Nat.exists_eq_add_of_lt hn
      simp only [Nat.zero_add] at *
      have := ih (m + 1) ((H.handle s e).1) hwf'
      constructor
      · simp only [exec, hT s e, if_true, sendersAfter, actsSends, isSome_map_opt]
        exact this.1
      · intro hz
        obtain ⟨sf, hsf⟩ := this.2 hz
        exact ⟨sf, by simp only [exec, hT s e, if_true, actsSends, hsf, Option.map_some']⟩
    | clone n as hn hwf' =>
      obtain ⟨m, rfl⟩ := Nat.exists_eq_add_of_lt hn
      simp only [Nat.zero_add] at *
      exact ih (m + 2) s hwf'
    | drop n as hn hwf' =>
      obtain ⟨m, rfl⟩ := Nat.exists_eq_add_of_lt hn
      simp only [Nat.zero_add, Nat.add_sub_cancel] at *
      exact ih m s hwf'

/-- C4: with well-formed producers and a handler that always continues, the
dispatch loop of `run` terminates precisely when every outstanding sender
(the original and all clones) has been dropped and the queue is drained —
the two conditions are resolved together by the single blocking `rx.recv()`
— and in that case `run` returns after delivering the whole queue: the
events `start` sent followed by every event the producers sent. -/
theorem runConc_terminates_iff_senders_dropped {S E : Type} (H : Handler S E) (s₀ : S)
    (n : Nat) (acts : List (PAct E))
    (hT : ∀ s e, (H.handle s e).2 = true) (hWF : WFActs n acts) :
    ((runConc H s₀ n acts).isSome = true ↔ sendersAfter n acts = 0)
    ∧ (sendersAfter n acts = 0 →
        ∃ sf, runConc H s₀ n acts = some (sf,
          LEv.startEv ::
            (((H.start s₀).2 ++ actsSends acts).map LEv.handleEv ++ [LEv.endEv]))) := by
  have hd := dispatch_all_true H hT (H.start s₀).2 (H.start s₀).1
  have he := exec_always_true H hT acts n (dispatch H (H.start s₀).1 (H.start s₀).2).state hWF
  constructor
  · rw [runConc, if_neg (by rw [hd.2]; exact Bool.false_ne_true ∘ id)]
    simpa using he.1
  · intro hz
    obtain ⟨sf, hsf⟩ := he.2 hz
    refine ⟨H.endh sf, ?_⟩
    rw [runConc, if_neg (by rw [hd.2]; exact Bool.false_ne_true ∘ id), hsf]
    simp [hd.1]

/-- Witness for C4: `collectH` with one live sender after `start` which
sends `4` and is then dropped. -/
theorem runConc_terminates_iff_senders_dropped_w :
    ((runConc collectH [] 1 [PAct.send 4, PAct.drop]).isSome = true
      ↔ sendersAfter 1 [PAct.send 4, PAct.drop] = 0)
    ∧ (sendersAfter 1 [PAct.send 4, PAct.drop] = 0 →
        ∃ sf, runConc collectH [] 1 [PAct.send 4, PAct.drop] = some (sf,
          LEv.startEv ::
            ((([1, 2, 3] : List Nat) ++ actsSends [PAct.send 4, PAct.drop]).map LEv.handleEv
              ++ [LEv.endEv]))) :=
  runConc_terminates_iff_senders_dropped collectH [] 1 [PAct.send 4, PAct.drop]
    (fun _ _ => rfl)
    (WFActs.send 4 1 [PAct.drop] (by decide)
      (WFActs.drop 1 [] (by decide) (WFActs.nil 0)))

/-- The list `out` is an interleaving of the lists `ls`: it is built by
repeatedly taking the next element from the front of any one of the lists,
each list's own order preserved. -/
inductive Interleave {α : Type} : List (List α) → List α → Prop where
  | nil (ls : List (List α)) : (∀ l ∈ ls, l = []) → Interleave ls []
  | cons (ls₁ : List (List α)) (x : α) (l : List α) (ls₂ : List (List α)) (out : List α) :
      Interleave (ls₁ ++ l :: ls₂) out → Interleave (ls₁ ++ (x :: l) :: ls₂) (x :: out)

/-- An interleaving of the lists `ls` is a permutation of their
concatenation: it has every element of every list exactly once. -/
theorem interleave_perm_flatten {α : Type} {ls : List (List α)} {out : List α}
    (h : Interleave ls out) : out.Perm ls.flatten := by
  induction h with
  | nil ls hls =>
    rw [List.flatten_eq_nil_iff.mpr hls]
  | cons ls₁ x l ls₂ out h ih =>
    have hsplit : (ls₁ ++ (x :: l) :: ls₂).flatten
        = ls₁.flatten ++ (x :: (l ++ ls₂.flatten)) := by
      simp [List.flatten_append]
    have hsplit' : (ls₁ ++ l :: ls₂).flatten = ls₁.flatten ++ (l ++ ls₂.flatten) := by
      simp [List.flatten_append]
    rw [hsplit]
    rw [hsplit'] at ih
    exact (ih.cons x).trans List.perm_middle.symm

/-- C7: when the events of `N` producing handles (the lists `producers`,
each a thread sending through its own `Sender` clone) reach the channel in
some global interleaved order, the handler always continuing and every
handle eventually dropped, `run` delivers exactly the channel's global send
order: each successfully sent event is delivered exactly once — no loss,
no duplication, any interleaving — and the delivered count equals the total
count successfully sent. -/
theorem concurrent_sends_delivered_once {S E : Type} (H : Handler S E) (s₀ : S)
    (n : Nat) (acts : List (PAct E)) (producers : List (List E))
    (hT : ∀ s e, (H.handle s e).2 = true) (hWF : WFActs n acts)
    (hZ : sendersAfter n acts = 0) (hI : Interleave producers (actsSends acts)) :
    ∃ sf, runConc H s₀ n acts = some (sf,
      LEv.startEv :: (((H.start s₀).2 ++ actsSends acts).map LEv.handleEv ++ [LEv.endEv]))
    ∧ (actsSends acts).Perm producers.flatten
    ∧ ((H.start s₀).2 ++ actsSends acts).length
        = (H.start s₀).2.length + (producers.map List.length).sum := by
  obtain ⟨sf, hsf⟩ := (runConc_terminates_iff_senders_dropped H s₀ n acts hT hWF).2 hZ
  refine ⟨sf, hsf, interleave_perm_flatten hI, ?_⟩
  rw [List.length_append, (interleave_perm_flatten hI).length_eq, List.length_flatten]

/-- Witness for C7: two producers sending `[4]` and `[5]` through their own
clones, interleaved as `4` then `5`, both clones then dropped. -/
theorem concurrent_sends_delivered_once_w :
    ∃ sf, runConc collectH [] 2 [PAct.send 4, PAct.send 5, PAct.drop, PAct.drop]
        = some (sf, LEv.startEv ::
            ((([1, 2, 3] : List Nat)
                ++ actsSends [PAct.send 4, PAct.send 5, PAct.drop, PAct.drop]).map LEv.handleEv
              ++ [LEv.endEv]))
    ∧ (actsSends [PAct.send 4, PAct.send 5, PAct.drop, PAct.drop]).Perm
        ([[4], [5]] : List (List Nat)).flatten
    ∧ (([1, 2, 3] : List Nat)
          ++ actsSends [PAct.send 4, PAct.send 5, PAct.drop, PAct.drop]).length
        = ([1, 2, 3] : List Nat).length + (([[4], [5]] : List (List Nat)).map List.length).sum :=
  concurrent_sends_delivered_once collectH [] 2
    [PAct.send 4, PAct.send 5, PAct.drop, PAct.drop] [[4], [5]]
    (fun _ _ => rfl)
    (WFActs.send 4 2 _ (by decide) (WFActs.send 5 2 _ (by decide)
      (WFActs.drop 2 _ (by decide) (WFActs.drop 1 _ (by decide) (WFActs.nil 0)))))
    rfl
    (Interleave.cons [] 4 [] [[5]] [5]
      (Interleave.cons [[]] 5 [] [] []
        (Interleave.nil [[], []] (by decide))))

/-- Embedding of the `Handler` trait for a handler whose `start` or
`handle` may panic (an unrecovered fault `P` that aborts the callback and
unwinds); `end` is a plain state observation as before. -/
structure PHandler (S E P : Type) where
  start : S → Except P (S × List E)
  handle : S → E → Except P (S × Bool)
  endh : S → S

/-- The dispatch loop for a possibly-panicking handler: the events passed
to `handle` so far (the call on which a panic arose included) and either
the surviving handler state or the propagated panic.  The driver installs
no unwind handling, so a panicking `handle` ends the loop by unwinding. -/
def dispatchP {S E P : Type} (H : PHandler S E P) : S → List E → List E × Except P S
  | s, [] => ([], Except.ok s)
  | s, e :: q =>
    match H.handle s e with
    | Except.error p => ([e], Except.error p)
    | Except.ok (s', true) =>
      let o := dispatchP H s' q
      (e :: o.1, o.2)
    | Except.ok (s', false) => ([e], Except.ok s')

/-- Embedding of `run` (src/src/lib.rs, lines 63-74) for a
possibly-panicking handler.  There is no `catch_unwind` anywhere in `run`,
so a panic in `start` or `handle` unwinds straight out of `run`, skipping
every later statement — `handler.end()` included.  Returns the lifecycle
trace of the callbacks actually invoked and the propagated panic, if any. -/
def runP {S E P : Type} (H : PHandler S E P) (s₀ : S) : List (LEv E) × Option P :=
  match H.start s₀ with
  | Except.error p => ([LEv.startEv], some p)
  | Except.ok (s₁, sent) =>
    match dispatchP H s₁ sent with
    | (ds, Except.error p) => (LEv.startEv :: ds.map LEv.handleEv, some p)
    | (ds, Except.ok _) => (LEv.startEv :: (ds.map LEv.handleEv ++ [LEv.endEv]), none)

/-- C8: if `start` or `handle` panics, `end` is never invoked — the driver
installs no unwind handling, so whenever a run of `run` propagates a panic,
its trace contains no `end` event: cleanup placed in `end` is skipped, not
deferred. -/
theorem panic_skips_end {S E P : Type} (H : PHandler S E P) (s₀ : S) (p : P)
    (h : (runP H s₀).2 = some p) : LEv.endEv ∉ (runP H s₀).1 := by
  rcases hs : H.start s₀ with p' | v
  · simp [runP, hs]
  · obtain ⟨s₁, sent⟩ := v
    rcases hd : dispatchP H s₁ sent with ⟨ds, r⟩
    rcases r with q' | s₂
    · simp [runP, hs, hd, List.mem_map]
    · simp [runP, hs, hd] at h

/-- Concrete handler whose `handle` always panics. -/
def panicH : PHandler Unit Nat Unit where
  start _ := Except.ok ((), [1])
  handle _ _ := Except.error ()
  endh s := s

/-- Witness for C8: `panicH` panics on its first event and its trace has no
`end` event. -/
theorem panic_skips_end_w : LEv.endEv ∉ (runP panicH ()).1 :=
  panic_skips_end panicH () () rfl

/-- Embedding of the `Handler` trait for a handler that keeps a clone of
its `Sender` in its own state, so that `handle` can send further events:
`handle` returns the new state, the events it pushed through the retained
clone during the call (in order), and the continue flag. -/
structure SHandler (S E : Type) where
  start : S → S × List E
  handle : S → E → S × List E × Bool
  endh : S → S

/-- `Sender::send` of `std::sync::mpsc`: appends to the queue and returns
`Ok` as long as the `Receiver` is alive, `Err` once it was dropped.  The
`Receiver` created by `run` lives on `run`'s own stack frame until `run`
returns, so every send issued during `start`, `handle` or `end` finds it
alive. -/
def sendMpsc {E : Type} (receiverAlive : Bool) (q : List E) (e : E) : List E × Bool :=
  if receiverAlive then (q ++ [e], true) else (q, false)

/-- Pushes a list of events through `sendMpsc` in order, returning the
grown queue and the per-send results. -/
def sendAll {E : Type} (receiverAlive : Bool) (q : List E) : List E → List E × List (E × Bool)
  | [] => (q, [])
  | e :: es =>
    let r := sendMpsc receiverAlive q e
    let rest := sendAll receiverAlive r.1 es
    (rest.1, (e, r.2) :: rest.2)

/-- The dispatch loop of `run` for a handler that retained a `Sender`
clone: because that clone stays alive, `rx.recv()` on an empty queue
blocks forever (`none`; the fuel bounds the modelled iterations), and the
loop ends only when `handle` returns `false`.  Returns the final state, the
delivered events and the log of every send issued from inside `handle` with
its result; events still queued when `handle` returns `false` — including
ones just sent successfully — are dropped without being observed. -/
def dispatchS {S E : Type} (H : SHandler S E) :
    Nat → S → List E → Option (S × List E × List (E × Bool))
  | 0, _, _ => none
  | _ + 1, _, [] => none
  | f + 1, s, e :: q =>
    match H.handle s e with
    | (s', sends, true) =>
      let r := sendAll true q sends
      (dispatchS H f s' r.1).map (fun o => (o.1, e :: o.2.1, r.2 ++ o.2.2))
    | (s', sends, false) =>
      let r := sendAll true q sends
      some (s', [e], r.2)

/-- Embedding of `run` for a handler with a retained `Sender` clone: the
`Receiver` is alive for the whole call, so all sends are attempted against
a live consuming handle. -/
def runS {S E : Type} (H : SHandler S E) (fuel : Nat) (s₀ : S) :
    Option (S × List E × List (E × Bool)) :=
  (dispatchS H fuel (H.start s₀).1 (H.start s₀).2).map
    (fun o => (H.endh o.1, o.2))

/-- Concrete handler that keeps its `Sender`: `start` queues `[1, 2]`, and
on event `2` the handler sends `99` through the retained clone and then
returns `false`. -/
def leakH : SHandler Unit Nat where
  start _ := ((), [1, 2])
  handle _ e := if e = 2 then ((), [99], false) else ((), [], true)
  endh s := s

/-- C9: a send on a retained `Sender` clone can succeed without the event
ever being delivered: the consuming handle lives until `run` returns, so
`leakH`'s send of `99` — issued in the very `handle` call that returns
`false` — gets `Ok` from `send`, yet `99` is never passed to `handle`.
Send success does not imply delivery. -/
theorem send_ok_without_delivery :
    ∃ o, runS leakH 10 () = some o ∧ (99, true) ∈ o.2.2 ∧ 99 ∉ o.2.1 :=
  ⟨((), [1, 2], [(99, true)]), rfl, by decide, by decide⟩

/-- The `while running` loop of `run` (src/src/lib.rs, lines 66-72) driven
by an explicit list of successive `rx.recv()` resolutions, for a handler
that may also send from inside `handle` through a retained `Sender` clone.
The loop itself never sees the sends — they go to the channel, so they
only constrain which resolution lists are legal (`ValidRecvsSends`); the
loop consumes one resolution per iteration, matching `Ok(event)` against a
wildcard exactly as the Rust `match` does. -/
def loopRecvS {S E ε : Type} (H : SHandler S E) : S → List (Except ε E) → Option (S × List E)
  | _, [] => none
  | s, Except.ok e :: rs =>
    let p := H.handle s e
    if p.2.2 then (loopRecvS H p.1 rs).map (fun o => (o.1, e :: o.2)) else some (p.1, [e])
  | s, Except.error _ :: _ => some (s, [])

/-- Embedding of `run` (src/src/lib.rs, lines 63-74) over an explicit list
of `recv` resolutions for a handler that may send from `handle`: `start`
first, the loop, then `end`; the result (when the loop terminates) is the
final state and the lifecycle trace. -/
def runRecvS {S E ε : Type} (H : SHandler S E) (s₀ : S) (recvs : List (Except ε E)) :
    Option (S × List (LEv E)) :=
  (loopRecvS H (H.start s₀).1 recvs).map
    (fun o => (H.endh o.1, LEv.startEv :: (o.2.map LEv.handleEv ++ [LEv.endEv])))

/-- Legal sequences of successive `rx.recv()` resolutions for an mpsc
channel fed only synchronously by the handler itself (no threads spawned):
the queue holds `q` (FIFO) with `n` live senders, the driver's state is
`s`, and after each delivery the queue grows by exactly the events that
`handle` call sent through its retained clone, so the channel contents
co-evolve deterministically with the handler state.  `recv` yields the
queued events in order; with an empty queue it resolves to an error only
when no sender is live, and then every later `recv` errors too; with a
live sender and an empty queue there is no resolution (`recv` blocks
forever, and no thread exists to unblock it).  The list may stop early,
since the loop may stop asking. -/
inductive ValidRecvsSends (ε : Type) {S E : Type} (H : SHandler S E) :
    S → List E → Nat → List (Except ε E) → Prop where
  | nil (s : S) (q : List E) (n : Nat) : ValidRecvsSends ε H s q n []
  | ok (s : S) (e : E) (q : List E) (n : Nat) (rs : List (Except ε E)) :
      ValidRecvsSends ε H (H.handle s e).1 (q ++ (H.handle s e).2.1) n rs →
      ValidRecvsSends ε H s (e :: q) n (Except.ok e :: rs)
  | closed (s : S) (err : ε) (rs : List (Except ε E)) :
      ValidRecvsSends ε H s [] 0 rs → ValidRecvsSends ε H s [] 0 (Except.error err :: rs)

/-- Any two terminating runs of the dispatch loop against legal recv
resolutions for the same channel contents and handler state agree, even
when `handle` itself sends. -/
theorem loopRecvS_unique {S E ε : Type} (H : SHandler S E) {s : S} {q : List E} {n : Nat}
    {rs₁ : List (Except ε E)} (h₁ : ValidRecvsSends ε H s q n rs₁) :
    ∀ {rs₂ : List (Except ε E)} {o₁ o₂ : S × List E},
      ValidRecvsSends ε H s q n rs₂ →
      loopRecvS H s rs₁ = some o₁ → loopRecvS H s rs₂ = some o₂ → o₁ = o₂ := by
  induction h₁ with
  | nil s q n =>
    intro rs₂ o₁ o₂ h₂ e₁ e₂
    simp [loopRecvS] at e₁
  | ok s e q n rs h ih =>
    intro rs₂ o₁ o₂ h₂ e₁ e₂
    cases h₂ with
    | ok _ _ _ _ rs₂' h₂' =>
      by_cases hp : (H.handle s e).2.2 = true
      · simp only [loopRecvS, hp, if_true, Option.map_eq_some'] at e₁ e₂
        obtain ⟨a₁, ha₁, rfl⟩ := e₁
        obtain ⟨a₂, ha₂, rfl⟩ := e₂
        rw [ih h₂' ha₁ ha₂]
      · simp only [loopRecvS, hp, if_false, Bool.false_eq_true, Option.some_inj] at e₁ e₂
        rw [← e₁, ← e₂]
    | nil => simp [loopRecvS] at e₂
  | closed s err rs h ih =>
    intro rs₂ o₁ o₂ h₂ e₁ e₂
    cases h₂ with
    | closed _ err' rs₂' h₂' =>
      simp only [loopRecvS, Option.some_inj] at e₁ e₂
      rw [← e₁, ← e₂]
    | nil => simp [loopRecvS] at e₂

/-- C10: a handler that spawns no threads and performs all of its sends
synchronously inside `start` and `handle` (the latter through a retained
`Sender` clone, as `SHandler` allows) makes `run` deterministic: with no
other thread feeding the channel, its contents co-evolve with the handler
state alone, the legal recv resolutions are forced, and any two
terminating executions of `run` from the same initial handler state yield
the same final state and the same lifecycle trace — the same sequence of
`handle` invocations and the same state passed to `end`. -/
theorem run_deterministic_no_threads {S E ε : Type} (H : SHandler S E) (s₀ : S) (n : Nat)
    (rs₁ rs₂ : List (Except ε E)) (o₁ o₂ : S × List (LEv E))
    (h₁ : ValidRecvsSends ε H (H.start s₀).1 (H.start s₀).2 n rs₁)
    (h₂ : ValidRecvsSends ε H (H.start s₀).1 (H.start s₀).2 n rs₂)
    (e₁ : runRecvS H s₀ rs₁ = some o₁) (e₂ : runRecvS H s₀ rs₂ = some o₂) :
    o₁ = o₂ := by
  simp only [runRecvS, Option.map_eq_some'] at e₁ e₂
  obtain ⟨a₁, ha₁, rfl⟩ := e₁
  obtain ⟨a₂, ha₂, rfl⟩ := e₂
  rw [loopRecvS_unique H h₁ h₂ ha₁ ha₂]

/-- Concrete handler that sends from inside `handle` through its retained
clone: `start` queues `[1]`; upon `1` the handler sends `2` and continues;
upon `2` it sends `7` and returns `false`, leaving `7` queued. -/
def pingH : SHandler (List Nat) Nat where
  start s := (s, [1])
  handle s e := (s ++ [e], if e == 1 then [2] else [7], e != 2)
  endh s := s

/-- Witness for C10 at `pingH`, which sends from `handle`: two different
legal recv-resolution lists (the second also resolves the still-queued `7`
that the loop never asks for) give the same final state and trace. -/
theorem run_deterministic_no_threads_w :
    (([1, 2], LEv.startEv :: (([1, 2] : List Nat).map LEv.handleEv ++ [LEv.endEv]))
        : List Nat × List (LEv Nat))
    = ([1, 2], LEv.startEv :: (([1, 2] : List Nat).map LEv.handleEv ++ [LEv.endEv])) :=
  run_deterministic_no_threads (ε := Unit) pingH [] 1
    [Except.ok 1, Except.ok 2]
    [Except.ok 1, Except.ok 2, Except.ok 7]
    _ _
    (ValidRecvsSends.ok [] 1 [] 1 _
      (ValidRecvsSends.ok [1] 2 [] 1 _ (ValidRecvsSends.nil [1, 2] [7] 1)))
    (ValidRecvsSends.ok [] 1 [] 1 _
      (ValidRecvsSends.ok [1] 2 [] 1 _
        (ValidRecvsSends.ok [1, 2] 7 [] 1 _ (ValidRecvsSends.nil [1, 2, 7] [7] 1))))
    rfl rfl

end Looper
